import Mathlib

/-!
Verification of the D3 bar-chart component (`src/app/app.component.ts`).

The component draws a single bar chart into an SVG element.  We embed it
shallowly: the SVG document fragment owned by the component is a state
(`Svg`) holding the rect elements, the foreignObject label elements and the
axis groups, plus a trace of which bind routines ran; the d3 scales are
computed exactly over `ℚ` (JavaScript's floating point numbers are idealized
as rationals; `undefined`/`NaN` values that d3 produces on an empty dataset
are modelled with `Option`).  The update routines (`updateSvg`,
`updateAxises`, `updateBars`, `updateLabels`, `setSizeAndPositionToRect`)
become pure state transformers, following d3's general-update-pattern
semantics for `selection.data` joins (join by index: the update selection is
the element/datum pairs up to the shorter length, the enter selection is the
surplus data, the exit selection is the surplus elements).
-/

namespace D3Sample

/-- `interface Datum \x7b name: string; value: number; primary?: boolean \x7d`.
The optional `primary` field is `Option Bool` (`none` = absent/`undefined`). -/
structure Datum where
  name : String
  value : ℚ
  primary : Option Bool := none
deriving DecidableEq, Repr

/-- `type Data = Datum[]`. -/
abbrev Data := List Datum

/-- A d3 `classed(name, d => d.primary)` call treats `undefined` as falsy;
`!d.primary` is `true` exactly when the flag is absent or `false`. -/
def Datum.isPrimary (d : Datum) : Bool := d.primary.getD false

/-- The geometry-relevant content of a datum: name and value (everything
except the visual `primary` flag). -/
def Datum.shape (d : Datum) : String × ℚ := (d.name, d.value)

/-- `readonly svgWidth = 600`. -/
def svgWidth : ℚ := 600

/-- `readonly svgHeight = 300`. -/
def svgHeight : ℚ := 300

/-- The shape of the private `svgMargin` object. -/
structure Margin where
  left : ℚ
  right : ℚ
  top : ℚ
  bottom : ℚ

/-- `svgMargin = \x7b left: 25, right: 5, top: 5, bottom: 15 \x7d`. -/
def svgMargin : Margin := ⟨25, 5, 5, 15⟩

/-! ## The band scale (`xScale`)

`d3.scaleBand().domain(data.map(d => d.name)).range([25, 595]).padding(0.4)`.
d3's ordinal domain setter skips values already present (an `InternMap`), so
the stored domain is the name list with duplicates removed, keeping first
occurrences.  `padding(0.4)` sets both `paddingInner` and `paddingOuter` to
`0.4`; defaults `align = 0.5`, `round = false` apply.  d3's `rescale` then
computes, with `n` the domain length and range `[start0, stop]`:
`step = (stop - start0) / max 1 (n - paddingInner + 2 * paddingOuter)`,
`start = start0 + (stop - start0 - step * (n - paddingInner)) * align`,
`bandwidth = step * (1 - paddingInner)`, and maps the i-th domain member to
`start + step * i`.  An unknown name maps to `undefined` (band scales set
`unknown(undefined)`), modelled as `none`. -/

/-- `padding(0.4)`: `paddingInner = paddingOuter = 0.4`. -/
def bandPadding : ℚ := 2/5

/-- d3's default `align` of `0.5`. -/
def bandAlign : ℚ := 1/2

/-- d3 ordinal-domain semantics: duplicates are skipped, first occurrences
kept in order. -/
def bandDomain (names : List String) : List String :=
  names.foldl (fun acc nm => if nm ∈ acc then acc else acc ++ [nm]) []

/-- A band scale after d3's `rescale`: the stored domain and range and the
derived `step`, `start` and `bandwidth`. -/
structure BandScale where
  domain : List String
  range : ℚ × ℚ
  step : ℚ
  start : ℚ
  bandwidth : ℚ
deriving DecidableEq, Repr

/-- Index of the first occurrence of a name in a domain list (`none` when
absent), mirroring the `InternMap` index of d3's ordinal scale. -/
def domIdx : List String → String → Option ℕ
  | [], _ => none
  | x :: xs, nm => if x = nm then some 0 else (domIdx xs nm).map (· + 1)

/-- Position of a name under a band scale: index in the (deduplicated)
domain, scaled; `none` (d3: `undefined`) for a name outside the domain. -/
def BandScale.pos (sc : BandScale) (nm : String) : Option ℚ :=
  (domIdx sc.domain nm).map fun i : ℕ => sc.start + sc.step * (i : ℚ)

/-- `private xScale(data: Data = [])`: builds the band scale over the datum
names with range `[svgMargin.left, svgWidth - svgMargin.right]`. -/
def xScale (data : Data := []) : BandScale :=
  let dom := bandDomain (data.map Datum.name)
  let n : ℚ := dom.length
  let start0 := svgMargin.left
  let stop := svgWidth - svgMargin.right
  let step := (stop - start0) / max 1 (n - bandPadding + bandPadding * 2)
  { domain := dom
  , range := (start0, stop)
  , step := step
  , start := start0 + (stop - start0 - step * (n - bandPadding)) * bandAlign
  , bandwidth := step * (1 - bandPadding) }

/-! ## The linear scale (`yScale`)

`d3.scaleLinear().domain([0, d3.max(values)]).range([285, 5]).nice()`.
`d3.max` of an empty array is `undefined` (modelled `none`); `.nice()` runs
d3's tick-increment fixpoint loop (at most 10 iterations, default tick count
10) on the domain.  We reproduce `tickIncrement` exactly over `ℚ`:
`Math.floor(Math.log10(step))` is the integer `p` with `10^p ≤ step <
10^(p+1)`, and the comparisons against `sqrt 50`, `sqrt 10`, `sqrt 2` are
done on squares.  On a degenerate domain (`start = stop`) the JS loop hits
`-Infinity`/`NaN` steps and exits leaving the domain untouched; returning
step `0` here takes the same exit with the same final domain. -/

/-- Fuel-driven `⌊log10 n⌋` on naturals (0 for `n < 10`). -/
def log10NatAux : ℕ → ℕ → ℕ
  | 0, _ => 0
  | fuel + 1, n => if n < 10 then 0 else log10NatAux fuel (n / 10) + 1

/-- `⌊log10 n⌋` for `n ≥ 1`. -/
def log10Nat (n : ℕ) : ℕ := log10NatAux n n

/-- `Math.pow(10, p)` for an integer exponent, over `ℚ`. -/
def zpow10 (p : ℤ) : ℚ :=
  if 0 ≤ p then (10 : ℚ) ^ p.toNat else 1 / (10 : ℚ) ^ (-p).toNat

/-- `Math.floor(Math.log10 q)` for a positive rational: the guess
`⌊log10 num⌋ - ⌊log10 den⌋` is off by at most one and is checked against
`q` directly. -/
def log10Floor (q : ℚ) : ℤ :=
  if q ≤ 0 then 0
  else
    let g : ℤ := (log10Nat q.num.toNat : ℤ) - (log10Nat q.den : ℤ)
    if zpow10 (g + 1) ≤ q then g + 1
    else if zpow10 g ≤ q then g
    else g - 1

/-- The `1 / 2 / 5 / 10` multiplier of d3's `tickIncrement`: `error ≥ sqrt c`
iff `error ^ 2 ≥ c` for the positive `error`. -/
def tickFactor (err : ℚ) : ℚ :=
  if 50 ≤ err ^ 2 then 10 else if 10 ≤ err ^ 2 then 5 else if 2 ≤ err ^ 2 then 2 else 1

/-- d3's `tickIncrement(start, stop, 10)`: positive results are integer-power
steps, negative results encode reciprocal steps `-10^(-p)/factor`; `0` stands
for the JS `NaN`/`-Infinity` outcome of a degenerate interval, on which the
nice loop exits without touching the domain. -/
def tickIncrement (start stop : ℚ) : ℚ :=
  let step := (stop - start) / 10
  if step ≤ 0 then 0
  else
    let power := log10Floor step
    let error := step / zpow10 power
    if 0 ≤ power then tickFactor error * zpow10 power
    else -zpow10 (-power) / tickFactor error

/-- The body of `nice`'s `while (maxIter-- > 0)` loop.  `orig` is the domain
the scale keeps when the loop exits without converging (d3 only writes the
domain back in the `step === prestep` branch); `cur` is the local
`(start, stop)` pair being rounded. -/
def niceLoop : ℕ → Option ℚ → ℚ × ℚ → ℚ × ℚ → ℚ × ℚ
  | 0, _, orig, _ => orig
  | fuel + 1, prestep, orig, cur =>
    let step := tickIncrement cur.1 cur.2
    if prestep = some step then cur
    else if 0 < step then
      niceLoop fuel (some step) orig ((⌊cur.1 / step⌋ : ℤ) * step, (⌈cur.2 / step⌉ : ℤ) * step)
    else if step < 0 then
      niceLoop fuel (some step) orig ((⌈cur.1 * step⌉ : ℤ) / step, (⌊cur.2 * step⌋ : ℤ) / step)
    else orig

/-- `linear.nice(10)` applied to a two-point domain: descending domains are
swapped for the loop and written back in original orientation. -/
def niceDomain (p : ℚ × ℚ) : ℚ × ℚ :=
  if p.2 < p.1 then
    let r := niceLoop 10 none (p.2, p.1) (p.2, p.1)
    (r.2, r.1)
  else niceLoop 10 none p p

/-- `d3.max` on a plain numeric array: the maximum, `undefined` (`none`) on
an empty array. -/
def d3Max : List ℚ → Option ℚ
  | [] => none
  | x :: xs => some (xs.foldl max x)

/-- The value list `data.map(d => d.value)`. -/
def values (data : Data) : List ℚ := data.map Datum.value

/-- A linear scale: domain (`none` models the `[0, undefined]` domain an
empty dataset produces) and range. -/
structure LinearScale where
  domain : Option (ℚ × ℚ)
  range : ℚ × ℚ
deriving DecidableEq, Repr

/-- Application of a d3 linear scale (no clamping): affine interpolation, a
degenerate domain maps everything to the range midpoint (`normalize` returns
the constant `0.5`), and the `NaN` scale of an empty dataset is given the
junk value `0` — it is never applied to a datum, since there is none. -/
def LinearScale.app (sc : LinearScale) (v : ℚ) : ℚ :=
  match sc.domain with
  | none => 0
  | some (d0, d1) =>
    let t := if d1 - d0 = 0 then (1 : ℚ) / 2 else (v - d0) / (d1 - d0)
    sc.range.1 + t * (sc.range.2 - sc.range.1)

/-- The domain as set by `.domain([0, d3.max(...)])`, before `.nice()`. -/
def yDomainRaw (data : Data) : ℚ × Option ℚ := (0, d3Max (values data))

/-- `private yScale(data: Data = [])`: linear scale with domain
`[0, d3.max(values)]`, range `[svgHeight - bottom, top]`, then `.nice()`. -/
def yScale (data : Data := []) : LinearScale :=
  { domain := (d3Max (values data)).map fun m => niceDomain (0, m)
  , range := (svgHeight - svgMargin.bottom, svgMargin.top) }

/-! ## Elements and the SVG state -/

/-- The geometry attributes `x`, `y`, `width`, `height` set on a bound
element. -/
structure Attrs where
  x : ℚ
  y : ℚ
  width : ℚ
  height : ℚ
deriving DecidableEq, Repr

/-- `private setSizeAndPositionToRect(selection, data)`: the attribute values
it assigns to the element bound to datum `d`, with both scales built from
`data`.  `x(d.name)` is `undefined` only for a name outside the band domain,
which cannot happen for `d ∈ data`; the totalization uses `0` there. -/
def setSizeAndPositionToRect (data : Data) (d : Datum) : Attrs :=
  let x := xScale data
  let y := yScale data
  { x := (x.pos d.name).getD 0
  , y := y.app d.value
  , width := x.bandwidth
  , height := svgHeight - svgMargin.bottom - y.app d.value }

/-- A `rect` element: bound datum, geometry, and the two class flags set by
`classed('primaryBar', d => d.primary).classed('secondaryBar', d => !d.primary)`. -/
structure RectEl where
  datum : Datum
  attrs : Attrs
  primaryBar : Bool
  secondaryBar : Bool
deriving DecidableEq, Repr

/-- The `xhtml:div` child of a label `foreignObject`: its classes and text. -/
structure DivEl where
  label : Bool
  primaryLabel : Bool
  secondaryLabel : Bool
  text : String
deriving DecidableEq, Repr

/-- A `foreignObject` label element: bound datum, geometry, child div. -/
structure LabelEl where
  datum : Datum
  attrs : Attrs
  div : DivEl
deriving DecidableEq, Repr

/-- An axis group (`g.axis`): the bottom x axis carries the band domain it
was rendered from, the left y axis the (possibly `undefined`) linear domain;
both keep their `transform` attribute. -/
inductive AxisEl where
  | bottomX (transform : String) (domain : List String)
  | leftY (transform : String) (domain : Option (ℚ × ℚ))
deriving DecidableEq, Repr

/-- The SVG document fragment owned by the component: rect elements,
foreignObject labels and axis groups in document order, plus a trace of the
bind routines run (for ordering statements). -/
structure Svg where
  rects : List RectEl := []
  labels : List LabelEl := []
  axes : List AxisEl := []
  trace : List String := []
deriving DecidableEq, Repr

/-- `${d.value}pts`. -/
def labelText (v : ℚ) : String := toString v ++ "pts"

/-- The rect element produced for datum `d` after `updateBars` ran on
`data`: every attribute and both classes are (re)assigned on the merged
selection, so the element is fully determined. -/
def mkRect (data : Data) (d : Datum) : RectEl :=
  { datum := d
  , attrs := setSizeAndPositionToRect data d
  , primaryBar := d.isPrimary
  , secondaryBar := !d.isPrimary }

/-- The freshly appended div of an entered label:
`classed('label', true).classed('primaryLabel', d.primary).classed('secondaryLabel', !d.primary).text(...)`. -/
def mkLabelDiv (d : Datum) : DivEl :=
  { label := true
  , primaryLabel := d.isPrimary
  , secondaryLabel := !d.isPrimary
  , text := labelText d.value }

/-- `private updateBars(data: Data = [])`: joins `data` to the `rect`
elements by index; the merged (entered + updated) selection gets geometry
from `setSizeAndPositionToRect` and both bar classes; `exit().remove()`
drops surplus elements. -/
def updateBars (data : Data) (s : Svg) : Svg :=
  let updated := (s.rects.zip data).map fun p => mkRect data p.2
  let entered := (data.drop s.rects.length).map fun d => mkRect data d
  { s with rects := updated ++ entered, trace := s.trace ++ ["bars"] }

/-- `private updateLabels(data: Data = [])`: the update selection is rebound
and repositioned and only its div **text** is refreshed (classes are left as
they were); the enter selection appends a `foreignObject` with a fresh div
carrying classes and text; `exit().remove()` drops surplus elements. -/
def updateLabels (data : Data) (s : Svg) : Svg :=
  let updated := (s.labels.zip data).map fun p =>
    { datum := p.2
    , attrs := setSizeAndPositionToRect data p.2
    , div := { p.1.div with text := labelText p.2.value } }
  let entered := (data.drop s.labels.length).map fun d =>
    { datum := d
    , attrs := setSizeAndPositionToRect data d
    , div := mkLabelDiv d }
  { s with labels := updated ++ entered, trace := s.trace ++ ["labels"] }

/-- The bottom x-axis group:
`append('g').attr('class','axis').attr('transform', translate(0, h-bottom)).call(d3.axisBottom(xScale(data)))`. -/
def bottomAxis (data : Data) : AxisEl :=
  .bottomX ("translate(0, " ++ toString (svgHeight - svgMargin.bottom) ++ ")")
    (xScale data).domain

/-- The left y-axis group:
`append('g').attr('class','axis').attr('transform', translate(left, 0)).call(d3.axisLeft(yScale(data)))`. -/
def leftAxis (data : Data) : AxisEl :=
  .leftY ("translate(" ++ toString svgMargin.left ++ ", 0)") (yScale data).domain

/-- `selectAll('.axis').remove()`: every axis group is removed. -/
def removeAxisElements (s : Svg) : Svg := { s with axes := [] }

/-- `private updateAxises(data: Data = [])`: removes every `.axis` group,
then appends the bottom x axis and the left y axis. -/
def updateAxises (data : Data) (s : Svg) : Svg :=
  let s' := removeAxisElements s
  { s' with
    axes := s'.axes ++ [bottomAxis data, leftAxis data],
    trace := s'.trace ++ ["axes"] }

/-- `updateSvg(data: Data = [])`: updates axes, then bars, then labels. -/
def updateSvg (s : Svg) (data : Data := []) : Svg :=
  updateLabels data (updateBars data (updateAxises data s))

/-- The fixed seven-element dataset of `ngAfterViewInit`. -/
def initialData : Data :=
  [ ⟨"競合A社", 53, none⟩
  , ⟨"当社", 72, some true⟩
  , ⟨"競合B社", 81, none⟩
  , ⟨"競合C社", 69, none⟩
  , ⟨"競合D社", 57, none⟩
  , ⟨"競合E社", 34, none⟩
  , ⟨"競合F社", 13, none⟩ ]

/-- `ngAfterViewInit()`: builds the fixed dataset and hands it wholesale to
`updateSvg`. -/
def ngAfterViewInit (s : Svg) : Svg := updateSvg s initialData

/-! ## General-update-pattern lemmas

The merged (update + enter) selection rewrites every field it touches, so a
join collapses to a plain `map` over the new data. -/

theorem zip_snd_append_drop {α β γ : Type*} (f : γ → β) (l : List α) :
    ∀ data : List γ,
      (l.zip data).map (fun p => f p.2) ++ (data.drop l.length).map f = data.map f := by
  induction l with
  | nil => intro data; simp
  | cons a l ih =>
    intro data
    cases data with
    | nil => simp
    | cons d ds => simpa using ih ds

theorem updateBars_rects (data : Data) (s : Svg) :
    (updateBars data s).rects = data.map (mkRect data) := by
  simpa [updateBars] using zip_snd_append_drop (mkRect data) s.rects data

theorem updateBars_length (data : Data) (s : Svg) :
    (updateBars data s).rects.length = data.length := by
  simp [updateBars_rects]

theorem updateLabels_length (data : Data) (s : Svg) :
    (updateLabels data s).labels.length = data.length := by
  simp [updateLabels]
  omega

theorem updateLabels_attrs (data : Data) (s : Svg) :
    (updateLabels data s).labels.map LabelEl.attrs =
      data.map (setSizeAndPositionToRect data) := by
  simpa [updateLabels, List.map_append, List.map_map, Function.comp] using
    zip_snd_append_drop (setSizeAndPositionToRect data) s.labels data

theorem updateLabels_proj (data : Data) (s : Svg) :
    (updateLabels data s).labels.map (fun l => (l.datum, l.attrs, l.div.text)) =
      data.map (fun d => (d, setSizeAndPositionToRect data d, labelText d.value)) := by
  simpa [updateLabels, List.map_append, List.map_map, Function.comp] using
    zip_snd_append_drop
      (fun d : Datum => (d, setSizeAndPositionToRect data d, labelText d.value)) s.labels data

theorem updateSvg_rects (s : Svg) (data : Data) :
    (updateSvg s data).rects = data.map (mkRect data) := by
  simpa [updateSvg, updateLabels, updateAxises, removeAxisElements] using
    updateBars_rects data (updateAxises data s)

theorem updateSvg_labels (s : Svg) (data : Data) :
    (updateSvg s data).labels =
      (s.labels.zip data).map (fun p =>
        { datum := p.2
        , attrs := setSizeAndPositionToRect data p.2
        , div := { p.1.div with text := labelText p.2.value } }) ++
      (data.drop s.labels.length).map (fun d =>
        { datum := d
        , attrs := setSizeAndPositionToRect data d
        , div := mkLabelDiv d }) := by
  simp [updateSvg, updateLabels, updateBars, updateAxises, removeAxisElements]

theorem updateSvg_labels_attrs (s : Svg) (data : Data) :
    (updateSvg s data).labels.map LabelEl.attrs =
      data.map (setSizeAndPositionToRect data) :=
  updateLabels_attrs data (updateBars data (updateAxises data s))

theorem updateSvg_labels_proj (s : Svg) (data : Data) :
    (updateSvg s data).labels.map (fun l => (l.datum, l.attrs, l.div.text)) =
      data.map (fun d => (d, setSizeAndPositionToRect data d, labelText d.value)) :=
  updateLabels_proj data (updateBars data (updateAxises data s))

theorem updateSvg_axes (s : Svg) (data : Data) :
    (updateSvg s data).axes = [bottomAxis data, leftAxis data] := by
  simp [updateSvg, updateLabels, updateBars, updateAxises, removeAxisElements]

theorem updateSvg_trace (s : Svg) (data : Data) :
    (updateSvg s data).trace = s.trace ++ ["axes", "bars", "labels"] := by
  simp [updateSvg, updateLabels, updateBars, updateAxises, removeAxisElements]

/-! ## Band-scale lemmas -/

theorem bandDomain_aux_mem (names : List String) :
    ∀ (acc : List String) (x : String),
      x ∈ names.foldl (fun acc nm => if nm ∈ acc then acc else acc ++ [nm]) acc ↔
        x ∈ acc ∨ x ∈ names := by
  induction names with
  | nil => simp
  | cons a tl ih =>
    intro acc x
    simp only [List.foldl_cons]
    by_cases h : a ∈ acc
    · rw [if_pos h, ih]
      constructor
      · rintro (hx | hx)
        · exact Or.inl hx
        · exact Or.inr (List.mem_cons_of_mem a hx)
      · rintro (hx | hx)
        · exact Or.inl hx
        · rcases List.mem_cons.mp hx with rfl | hx
          · exact Or.inl h
          · exact Or.inr hx
    · rw [if_neg h, ih]
      simp only [List.mem_append, List.mem_singleton, List.mem_cons]
      tauto

theorem mem_bandDomain (names : List String) (x : String) :
    x ∈ bandDomain names ↔ x ∈ names := by
  rw [bandDomain, bandDomain_aux_mem]
  simp

theorem bandDomain_aux_nodup (names : List String) :
    ∀ acc : List String, (∀ x ∈ names, x ∉ acc) → names.Nodup →
      names.foldl (fun acc nm => if nm ∈ acc then acc else acc ++ [nm]) acc = acc ++ names := by
  induction names with
  | nil => simp
  | cons a tl ih =>
    intro acc hdisj hnd
    have ha : a ∉ acc := hdisj a (List.mem_cons_self a tl)
    simp only [List.foldl_cons, if_neg ha]
    rw [ih (acc ++ [a])]
    · simp
    · intro x hx
      simp only [List.mem_append, List.mem_singleton]
      rintro (hx' | rfl)
      · exact hdisj x (List.mem_cons_of_mem a hx) hx'
      · exact (List.nodup_cons.mp hnd).1 hx
    · exact (List.nodup_cons.mp hnd).2

/-- With pairwise-distinct names the d3 ordinal domain is the name list
itself. -/
theorem bandDomain_of_nodup (names : List String) (h : names.Nodup) :
    bandDomain names = names := by
  rw [bandDomain, bandDomain_aux_nodup names [] (by simp) h]
  simp

theorem domIdx_of_mem {l : List String} {nm : String} (h : nm ∈ l) :
    ∃ i, domIdx l nm = some i := by
  induction l with
  | nil => cases h
  | cons x xs ih =>
    by_cases hx : x = nm
    · exact ⟨0, by simp [domIdx, hx]⟩
    · rcases List.mem_cons.mp h with rfl | hmem
      · exact absurd rfl hx
      · obtain ⟨i, hi⟩ := ih hmem
        exact ⟨i + 1, by simp [domIdx, hx, hi]⟩

theorem domIdx_lt_length {l : List String} {nm : String} {i : ℕ}
    (h : domIdx l nm = some i) : i < l.length := by
  induction l generalizing i with
  | nil => cases h
  | cons x xs ih =>
    rw [domIdx] at h
    by_cases hx : x = nm
    · rw [if_pos hx] at h
      cases h
      simp
    · rw [if_neg hx] at h
      cases hd : domIdx xs nm with
      | none => rw [hd] at h; cases h
      | some j =>
        rw [hd] at h
        cases h
        have := ih hd
        simp only [List.length_cons]
        omega

theorem xScale_domain (data : Data) :
    (xScale data).domain = bandDomain (data.map Datum.name) := rfl

theorem xScale_range (data : Data) :
    (xScale data).range = (svgMargin.left, svgWidth - svgMargin.right) := rfl

theorem xScale_step (data : Data) :
    (xScale data).step =
      (svgWidth - svgMargin.right - svgMargin.left) /
        max 1 (((bandDomain (data.map Datum.name)).length : ℚ) - bandPadding +
          bandPadding * 2) := rfl

theorem xScale_start (data : Data) :
    (xScale data).start =
      svgMargin.left +
        (svgWidth - svgMargin.right - svgMargin.left -
          (xScale data).step * (((bandDomain (data.map Datum.name)).length : ℚ) -
            bandPadding)) * bandAlign := rfl

theorem xScale_bandwidth (data : Data) :
    (xScale data).bandwidth = (xScale data).step * (1 - bandPadding) := rfl

/-- Every position produced by the band scale lies, together with the
bandwidth, inside the range `[25, 595]`. -/
theorem xScale_pos_bounds (data : Data) (nm : String) (p : ℚ)
    (h : (xScale data).pos nm = some p) :
    svgMargin.left ≤ p ∧ p + (xScale data).bandwidth ≤ svgWidth - svgMargin.right := by
  simp only [BandScale.pos, xScale_domain] at h
  obtain ⟨i, hd, h⟩ := Option.map_eq_some'.mp h
  · have hlen : i < (bandDomain (data.map Datum.name)).length := domIdx_lt_length hd
    set n := (bandDomain (data.map Datum.name)).length with hn
    have hN : (1 : ℚ) ≤ (n : ℚ) := by exact_mod_cast Nat.one_le_iff_ne_zero.mpr (by omega)
    have hiN : ((i : ℚ)) + 1 ≤ (n : ℚ) := by exact_mod_cast hlen
    have hiq : (0 : ℚ) ≤ (i : ℚ) := by positivity
    have hmaxarg : ((n : ℚ)) - bandPadding + bandPadding * 2 = (n : ℚ) + 2/5 := by
      simp only [bandPadding]; ring
    have hmax : max (1 : ℚ) (((n : ℚ)) - bandPadding + bandPadding * 2) = (n : ℚ) + 2/5 := by
      rw [hmaxarg, max_eq_right (by linarith)]
    have hden : (0 : ℚ) < (n : ℚ) + 2/5 := by linarith
    have hstep : (xScale data).step = 570 / ((n : ℚ) + 2/5) := by
      rw [xScale_step, ← hn, hmax]
      norm_num [svgWidth, svgMargin]
    have hS : (0 : ℚ) < (xScale data).step := by rw [hstep]; positivity
    have hprod : (xScale data).step * ((n : ℚ) + 2/5) = 570 := by
      rw [hstep]; field_simp
    have hstart : (xScale data).start =
        25 + (570 - (xScale data).step * ((n : ℚ) - 2/5)) * (1/2) := by
      rw [xScale_start, ← hn]
      norm_num [svgWidth, svgMargin, bandPadding, bandAlign]
    have hbw : (xScale data).bandwidth = (xScale data).step * (3/5) := by
      rw [xScale_bandwidth]; simp only [bandPadding]; norm_num
    have hSi : (xScale data).step * (i : ℚ) ≤ (xScale data).step * ((n : ℚ) - 1) :=
      mul_le_mul_of_nonneg_left (by linarith) hS.le
    subst h
    rw [hstart, hbw]
    constructor
    · have := mul_nonneg hS.le hiq
      norm_num [svgMargin]
      nlinarith [hprod, hS]
    · norm_num [svgWidth, svgMargin]
      nlinarith [hprod, hS, hSi]

/-! ## Linear-scale lemmas -/

theorem le_foldl_max (x : ℚ) (xs : List ℚ) : x ≤ xs.foldl max x := by
  induction xs generalizing x with
  | nil => simp
  | cons a tl ih => exact le_trans (le_max_left x a) (ih (max x a))

theorem mem_le_foldl_max (y : ℚ) (xs : List ℚ) :
    ∀ x, y ∈ xs → y ≤ xs.foldl max x := by
  induction xs with
  | nil => intro x h; cases h
  | cons a tl ih =>
    intro x h
    rcases List.mem_cons.mp h with rfl | h'
    · exact le_trans (le_max_right x y) (le_foldl_max _ tl)
    · exact ih (max x a) h'

/-- `d3.max` of a non-empty list is an upper bound of its members. -/
theorem d3Max_spec (l : List ℚ) (hl : l ≠ []) :
    ∃ m, d3Max l = some m ∧ ∀ v ∈ l, v ≤ m := by
  cases l with
  | nil => exact absurd rfl hl
  | cons x xs =>
    refine ⟨xs.foldl max x, rfl, ?_⟩
    intro v hv
    rcases List.mem_cons.mp hv with rfl | hv'
    · exact le_foldl_max v xs
    · exact mem_le_foldl_max v xs x hv'

/-- The nice loop only rounds outward: starting from the ascending domain
`(0, m)`, the lower end stays `0` and the upper end never drops below `m`,
whichever branch each iteration takes and whether or not it converges. -/
theorem niceLoop_inv (fuel : ℕ) :
    ∀ (pre : Option ℚ) (m : ℚ) (cur : ℚ × ℚ), cur.1 = 0 → m ≤ cur.2 →
      (niceLoop fuel pre (0, m) cur).1 = 0 ∧ m ≤ (niceLoop fuel pre (0, m) cur).2 := by
  induction fuel with
  | zero => intro pre m cur h1 h2; exact ⟨rfl, le_rfl⟩
  | succ fuel ih =>
    intro pre m cur h1 h2
    simp only [niceLoop]
    set step := tickIncrement cur.1 cur.2 with hstepdef
    split_ifs with hpre hpos hneg
    · exact ⟨h1, h2⟩
    · apply ih
      · simp [h1]
      · have h3 : cur.2 / step ≤ (⌈cur.2 / step⌉ : ℚ) := Int.le_ceil _
        have h4 : cur.2 ≤ (⌈cur.2 / step⌉ : ℚ) * step := (div_le_iff₀ hpos).mp h3
        exact le_trans h2 h4
    · apply ih
      · simp [h1]
      · have h3 : ((⌊cur.2 * step⌋ : ℚ)) ≤ cur.2 * step := Int.floor_le _
        have h4 : cur.2 ≤ (⌊cur.2 * step⌋ : ℚ) / step :=
          (le_div_iff_of_neg hneg).mpr h3
        exact le_trans h2 h4
    · exact ⟨rfl, le_rfl⟩

theorem niceDomain_inv (m : ℚ) (hm : 0 ≤ m) :
    (niceDomain (0, m)).1 = 0 ∧ m ≤ (niceDomain (0, m)).2 := by
  have hcond : ¬ (((0 : ℚ), m).2 < ((0 : ℚ), m).1) := by simpa using hm
  rw [niceDomain, if_neg hcond]
  exact niceLoop_inv 10 none m (0, m) rfl le_rfl

/-- Closed form of a linear-scale application once the domain is known. -/
theorem LinearScale.app_eq (sc : LinearScale) (d0 d1 v : ℚ)
    (h : sc.domain = some (d0, d1)) :
    sc.app v =
      sc.range.1 +
        (if d1 - d0 = 0 then (1 : ℚ) / 2 else (v - d0) / (d1 - d0)) *
          (sc.range.2 - sc.range.1) := by
  unfold LinearScale.app
  rw [h]

/-- All facts about the y scale needed for bar geometry: the raw maximum, the
niced domain `[0, hi]` with `hi ≥ max`, pixel-range bounds of applications,
and strict monotonicity of the resulting bar height. -/
theorem yScale_app_props (data : Data) (hne : data ≠ [])
    (hnn : ∀ d ∈ data, 0 ≤ d.value) :
    ∃ m hi,
      d3Max (values data) = some m ∧ 0 ≤ m ∧ (∀ d ∈ data, d.value ≤ m) ∧
      (yScale data).domain = some (0, hi) ∧ m ≤ hi ∧
      (∀ v : ℚ, 0 ≤ v → v ≤ m →
        svgMargin.top ≤ (yScale data).app v ∧
        (yScale data).app v ≤ svgHeight - svgMargin.bottom) ∧
      (∀ v w : ℚ, 0 ≤ v → v < w → w ≤ m →
        svgHeight - svgMargin.bottom - (yScale data).app v <
          svgHeight - svgMargin.bottom - (yScale data).app w) := by
  have hvals : values data ≠ [] := fun h => hne (by simpa [values] using h)
  obtain ⟨m, hmax, hub⟩ := d3Max_spec (values data) hvals
  have hub' : ∀ d ∈ data, d.value ≤ m := fun d hd =>
    hub d.value (List.mem_map_of_mem Datum.value hd)
  have hm0 : 0 ≤ m := by
    cases hd : data with
    | nil => exact absurd hd hne
    | cons d tl =>
      have hdm : d ∈ data := by rw [hd]; exact List.mem_cons_self d tl
      exact le_trans (hnn d hdm) (hub' d hdm)
  obtain ⟨hfst, hsnd⟩ := niceDomain_inv m hm0
  set hi := (niceDomain (0, m)).2 with hhi
  have hdom : (yScale data).domain = some (0, hi) := by
    show ((d3Max (values data)).map fun mm => niceDomain (0, mm)) = some (0, hi)
    rw [hmax, Option.map_some']
    congr 1
    exact Prod.ext hfst rfl
  have hi0 : 0 ≤ hi := le_trans hm0 hsnd
  have happ : ∀ v : ℚ, (yScale data).app v =
      285 + (if hi = 0 then (1 : ℚ) / 2 else v / hi) * (-280) := by
    intro v
    rw [LinearScale.app_eq (yScale data) 0 hi v hdom]
    have hr : (yScale data).range = (svgHeight - svgMargin.bottom, svgMargin.top) := rfl
    rw [hr]
    norm_num [svgHeight, svgMargin]
  refine ⟨m, hi, hmax, hm0, hub', hdom, hsnd, ?_, ?_⟩
  · intro v hv0 hvm
    rw [happ v]
    by_cases h0 : hi = 0
    · rw [if_pos h0]
      norm_num [svgMargin, svgHeight]
    · rw [if_neg h0]
      have hipos : 0 < hi := lt_of_le_of_ne hi0 (Ne.symm h0)
      have h1 : 0 ≤ v / hi := div_nonneg hv0 hi0
      have h2 : v / hi ≤ 1 := (div_le_one hipos).mpr (le_trans hvm hsnd)
      constructor
      · norm_num [svgMargin]
        nlinarith
      · norm_num [svgHeight, svgMargin]
        nlinarith
  · intro v w hv0 hvw hwm
    have h0 : hi ≠ 0 := by
      intro h0
      have : m ≤ 0 := h0 ▸ hsnd
      have : w ≤ 0 := le_trans hwm this
      linarith
    have hipos : 0 < hi := lt_of_le_of_ne hi0 (Ne.symm h0)
    rw [happ v, happ w, if_neg h0, if_neg h0]
    have : v / hi < w / hi := (div_lt_div_iff_of_pos_right hipos).mpr hvw
    nlinarith

/-- Projection lemmas for `setSizeAndPositionToRect`. -/
theorem setSize_x (data : Data) (d : Datum) :
    (setSizeAndPositionToRect data d).x = ((xScale data).pos d.name).getD 0 := rfl

theorem setSize_y (data : Data) (d : Datum) :
    (setSizeAndPositionToRect data d).y = (yScale data).app d.value := rfl

theorem setSize_width (data : Data) (d : Datum) :
    (setSizeAndPositionToRect data d).width = (xScale data).bandwidth := rfl

theorem setSize_height (data : Data) (d : Datum) :
    (setSizeAndPositionToRect data d).height =
      svgHeight - svgMargin.bottom - (yScale data).app d.value := rfl

/-! ## Shape congruence: geometry does not read the `primary` flag -/

theorem xScale_of_shape {data1 data2 : Data}
    (h : data1.map Datum.shape = data2.map Datum.shape) :
    xScale data1 = xScale data2 := by
  have hn : data1.map Datum.name = data2.map Datum.name := by
    have h1 := congrArg (List.map Prod.fst) h
    simpa [List.map_map, Function.comp, Datum.shape] using h1
  simp only [xScale, hn]

theorem yScale_of_shape {data1 data2 : Data}
    (h : data1.map Datum.shape = data2.map Datum.shape) :
    yScale data1 = yScale data2 := by
  have hv : values data1 = values data2 := by
    have h1 := congrArg (List.map Prod.snd) h
    simpa [List.map_map, Function.comp, Datum.shape, values] using h1
  simp only [yScale, hv]

theorem setSize_of_shape {data1 data2 : Data} {d1 d2 : Datum}
    (h : data1.map Datum.shape = data2.map Datum.shape)
    (hd : d1.shape = d2.shape) :
    setSizeAndPositionToRect data1 d1 = setSizeAndPositionToRect data2 d2 := by
  have hn : d1.name = d2.name := by
    have := congrArg Prod.fst hd
    simpa [Datum.shape] using this
  have hv : d1.value = d2.value := by
    have := congrArg Prod.snd hd
    simpa [Datum.shape] using this
  simp only [setSizeAndPositionToRect, xScale_of_shape h, yScale_of_shape h, hn, hv]

theorem map_congr_of_shape {α : Type*} {f g : Datum → α}
    (hfg : ∀ d1 d2, d1.shape = d2.shape → f d1 = g d2) :
    ∀ l1 l2 : Data, l1.map Datum.shape = l2.map Datum.shape → l1.map f = l2.map g := by
  intro l1
  induction l1 with
  | nil =>
    intro l2 h
    cases l2 with
    | nil => rfl
    | cons a b => simp at h
  | cons d tl ih =>
    intro l2 h
    cases l2 with
    | nil => simp at h
    | cons d2 tl2 =>
      simp only [List.map_cons, List.cons.injEq] at h ⊢
      exact ⟨hfg d d2 h.1, ih tl2 h.2⟩

/-! ## The claims -/

/-- C1: for the empty dataset (or an omitted dataset argument, which defaults
to the empty sequence) `updateSvg` degrades gracefully to an empty chart: no
bar rectangles and no value labels are produced, the update completes (it is
a total function of the state), and the linear y scale is computed with
`d3.max` of the empty value list being `undefined`, leaving the scale with no
usable domain. -/
theorem C1_empty_dataset_graceful (s : Svg) :
    updateSvg s = updateSvg s [] ∧
    (updateSvg s []).rects = [] ∧
    (updateSvg s []).labels = [] ∧
    d3Max (values []) = none ∧
    (yScale []).domain = none := by
  refine ⟨rfl, ?_, ?_, rfl, rfl⟩
  · rw [updateSvg_rects]
    rfl
  · rw [updateSvg_labels]
    simp

/-- C2: each bind-and-draw routine removes stale elements: after `updateBars`
exactly `data.length` rect elements remain, after `updateLabels` exactly
`data.length` foreignObject labels remain, whatever the previous state held. -/
theorem C2_stale_elements_removed (data : Data) (s : Svg) :
    (updateBars data s).rects.length = data.length ∧
    (updateLabels data s).labels.length = data.length :=
  ⟨updateBars_length data s, updateLabels_length data s⟩

/-- C3 counterexample: the claim says the band-scale domain is exactly the
sequence of datum names in data order, but d3's ordinal domain skips
duplicates, so two data sharing the name "a" produce the one-element domain
`["a"]`, not `["a", "a"]`. -/
theorem C3_counterexample :
    (xScale [⟨"a", 1, none⟩, ⟨"a", 2, none⟩]).domain ≠
      ([⟨"a", 1, none⟩, ⟨"a", 2, none⟩] : Data).map Datum.name := by
  decide

/-- C3 (amended): the band scale's domain is the sequence of datum names with
duplicates removed (first occurrences, in data order) — equal to the name
sequence itself whenever the names are pairwise distinct; its range is
`[svgMargin.left, svgWidth - svgMargin.right] = [25, 595]`; every datum's
name is mapped to some position, and every mapped position together with the
bandwidth lies within the range. -/
theorem C3_band_scale_amended (data : Data) :
    ((data.map Datum.name).Nodup → (xScale data).domain = data.map Datum.name) ∧
    (xScale data).range = (svgMargin.left, svgWidth - svgMargin.right) ∧
    (svgMargin.left, svgWidth - svgMargin.right) = ((25 : ℚ), 595) ∧
    (∀ d ∈ data, ∃ p, (xScale data).pos d.name = some p) ∧
    ∀ nm p, (xScale data).pos nm = some p →
      svgMargin.left ≤ p ∧ p + (xScale data).bandwidth ≤ svgWidth - svgMargin.right := by
  refine ⟨?_, xScale_range data, by norm_num [svgMargin, svgWidth], ?_, ?_⟩
  · intro h
    rw [xScale_domain, bandDomain_of_nodup _ h]
  · intro d hd
    have hmem : d.name ∈ bandDomain (data.map Datum.name) :=
      (mem_bandDomain _ _).mpr (List.mem_map_of_mem Datum.name hd)
    obtain ⟨i, hi⟩ := domIdx_of_mem hmem
    exact ⟨(xScale data).start + (xScale data).step * (i : ℚ),
      by simp [BandScale.pos, xScale_domain, hi]⟩
  · intro nm p hp
    exact xScale_pos_bounds data nm p hp

/-- C3 witness: the amended statement evaluated on the fixed dataset; the
second bar ("当社") sits at position `4915/37` and fits in the range. -/
theorem C3_witness :
    (xScale initialData).domain = initialData.map Datum.name ∧
    svgMargin.left ≤ (4915/37 : ℚ) ∧
    (4915/37 : ℚ) + (xScale initialData).bandwidth ≤ svgWidth - svgMargin.right := by
  have hp : (xScale initialData).pos "当社" = some (4915/37 : ℚ) := by
    simp +decide [BandScale.pos, xScale, bandDomain, domIdx, initialData, svgMargin,
      svgWidth, bandPadding, bandAlign]
    norm_num
  obtain ⟨h1, h2⟩ :=
    (C3_band_scale_amended initialData).2.2.2.2 "当社" (4915/37 : ℚ) hp
  exact ⟨(C3_band_scale_amended initialData).1 (by decide), h1, h2⟩

/-- C4: for a non-empty dataset of non-negative values the y scale's raw
domain is `[0, max]`; after `.nice()` the effective domain is `[0, hi]` with
`max ≤ hi`; every datum's y position lies within the vertical pixel range
`[svgMargin.top, svgHeight - svgMargin.bottom]`, the bar height is
non-negative, and a strictly larger value yields a strictly taller bar. -/
theorem C4_y_scale_bar_height (data : Data) (hne : data ≠ [])
    (hnn : ∀ d ∈ data, 0 ≤ d.value) :
    ∃ m hi,
      yDomainRaw data = (0, some m) ∧
      (∀ d ∈ data, d.value ≤ m) ∧ 0 ≤ m ∧
      (yScale data).domain = some (0, hi) ∧ m ≤ hi ∧
      (yScale data).range = (svgHeight - svgMargin.bottom, svgMargin.top) ∧
      (∀ d ∈ data,
        svgMargin.top ≤ (setSizeAndPositionToRect data d).y ∧
        (setSizeAndPositionToRect data d).y ≤ svgHeight - svgMargin.bottom ∧
        0 ≤ (setSizeAndPositionToRect data d).height) ∧
      ∀ d1 ∈ data, ∀ d2 ∈ data, d1.value < d2.value →
        (setSizeAndPositionToRect data d1).height <
          (setSizeAndPositionToRect data d2).height := by
  obtain ⟨m, hi, hmax, hm0, hub, hdom, hmhi, hbounds, hmono⟩ :=
    yScale_app_props data hne hnn
  refine ⟨m, hi, ?_, hub, hm0, hdom, hmhi, rfl, ?_, ?_⟩
  · rw [yDomainRaw, hmax]
  · intro d hd
    have h := hbounds d.value (hnn d hd) (hub d hd)
    refine ⟨?_, ?_, ?_⟩
    · rw [setSize_y]; exact h.1
    · rw [setSize_y]; exact h.2
    · rw [setSize_height]; linarith [h.2]
  · intro d1 h1 d2 h2 hlt
    rw [setSize_height, setSize_height]
    exact hmono d1.value d2.value (hnn d1 h1) hlt (hub d2 h2)

/-- C4 witness: on the fixed dataset the bar of value 81 is strictly taller
than the bar of value 13. -/
theorem C4_witness :
    (setSizeAndPositionToRect initialData ⟨"競合F社", 13, none⟩).height <
      (setSizeAndPositionToRect initialData ⟨"競合B社", 81, none⟩).height := by
  obtain ⟨m, hi, -, -, -, -, -, -, -, hmono⟩ :=
    C4_y_scale_bar_height initialData (by decide) (by decide)
  exact hmono ⟨"競合F社", 13, none⟩ (by decide) ⟨"競合B社", 81, none⟩ (by decide) (by decide)

/-- C5: one `updateSvg` call refreshes all three element groups in place from
the given dataset (axes, bars and labels are all recomputed from `data`), and
the only other public method, the lifecycle hook `ngAfterViewInit`, mutates
the graphic exclusively through that same single dataset-accepting method. -/
theorem C5_single_public_mutator (s : Svg) (data : Data) :
    (updateSvg s data).axes = [bottomAxis data, leftAxis data] ∧
    (updateSvg s data).rects = data.map (mkRect data) ∧
    (updateSvg s data).labels.map (fun l => (l.datum, l.attrs, l.div.text)) =
      data.map (fun d => (d, setSizeAndPositionToRect data d, labelText d.value)) ∧
    ngAfterViewInit s = updateSvg s initialData :=
  ⟨updateSvg_axes s data, updateSvg_rects s data, updateSvg_labels_proj s data, rfl⟩

/-- C6: the `primary` flag only distinguishes an element visually: two
datasets equal up to `primary` flags produce identical geometry (`x`, `y`,
`width`, `height`) for every bar and label; the flag only drives the
`primaryBar`/`secondaryBar` classes (mutually exclusive on every bar) and the
`primaryLabel`/`secondaryLabel` classes (mutually exclusive on every label
whenever they were exclusive on the pre-existing labels, since the update
selection keeps its div classes). -/
theorem C6_primary_flag_visual_only (data1 data2 : Data) (s : Svg)
    (h : data1.map Datum.shape = data2.map Datum.shape) :
    (updateSvg s data1).rects.map RectEl.attrs =
      (updateSvg s data2).rects.map RectEl.attrs ∧
    (updateSvg s data1).labels.map LabelEl.attrs =
      (updateSvg s data2).labels.map LabelEl.attrs ∧
    (∀ r ∈ (updateSvg s data1).rects, r.primaryBar = !r.secondaryBar) ∧
    ((∀ l ∈ s.labels, l.div.primaryLabel = !l.div.secondaryLabel) →
      ∀ l ∈ (updateSvg s data1).labels, l.div.primaryLabel = !l.div.secondaryLabel) := by
  refine ⟨?_, ?_, ?_, ?_⟩
  · rw [updateSvg_rects, updateSvg_rects, List.map_map, List.map_map]
    exact map_congr_of_shape
      (fun d1 d2 hd => by simpa [Function.comp, mkRect] using setSize_of_shape h hd)
      data1 data2 h
  · rw [updateSvg_labels_attrs, updateSvg_labels_attrs]
    exact map_congr_of_shape (fun d1 d2 hd => setSize_of_shape h hd) data1 data2 h
  · intro r hr
    rw [updateSvg_rects] at hr
    obtain ⟨d, hd, rfl⟩ := List.mem_map.mp hr
    simp [mkRect]
  · intro hinv l hl
    rw [updateSvg_labels] at hl
    rcases List.mem_append.mp hl with hl | hl
    · obtain ⟨⟨el, d⟩, hp, rfl⟩ := List.mem_map.mp hl
      simpa using hinv el (List.of_mem_zip hp).1
    · obtain ⟨d, hd, rfl⟩ := List.mem_map.mp hl
      simp [mkLabelDiv]

/-- C6 witness: flipping the `primary` flag of the single datum leaves the
bar geometry unchanged. -/
theorem C6_witness :
    (updateSvg {} [⟨"a", 1, some true⟩]).rects.map RectEl.attrs =
      (updateSvg {} [⟨"a", 1, none⟩]).rects.map RectEl.attrs :=
  (C6_primary_flag_visual_only [⟨"a", 1, some true⟩] [⟨"a", 1, none⟩] {} (by decide)).1

/-- C7 counterexample: the redraw pipeline does not bind in the order bars,
labels, axes — on the fixed dataset the recorded bind order is
`["axes", "bars", "labels"]`. -/
theorem C7_counterexample :
    (updateSvg ({} : Svg) initialData).trace ≠ ["bars", "labels", "axes"] := by
  decide

/-- C7 (amended): the redraw pipeline loads the fixed data and binds the
three graphic element groups in the order axes, bars, labels (each bind
routine computes the scales it applies from the same dataset). -/
theorem C7_pipeline_order_amended (s : Svg) (data : Data) :
    (updateSvg s data).trace = s.trace ++ ["axes", "bars", "labels"] ∧
    (ngAfterViewInit s).trace = s.trace ++ ["axes", "bars", "labels"] ∧
    ngAfterViewInit s = updateSvg s initialData :=
  ⟨updateSvg_trace s data, updateSvg_trace s initialData, rfl⟩

/-- C8: the data sequence is the fixed seven-element list, built once in
`ngAfterViewInit` and passed wholesale to `updateSvg`; the hook performs
exactly one redraw (one axes/bars/labels round) and nothing mutates the
sequence afterwards — it is an immutable value. -/
theorem C8_fixed_data_once (s : Svg) :
    initialData.length = 7 ∧
    ngAfterViewInit s = updateSvg s initialData ∧
    (ngAfterViewInit s).trace = s.trace ++ ["axes", "bars", "labels"] :=
  ⟨rfl, rfl, updateSvg_trace s initialData⟩

/-- C9: every bar and label positioned by `setSizeAndPositionToRect` shares
the common baseline `y + height = svgHeight - svgMargin.bottom = 285` and the
uniform width of one band-scale bandwidth. -/
theorem C9_common_baseline_uniform_width (data : Data) (s : Svg) :
    svgHeight - svgMargin.bottom = 285 ∧
    (∀ r ∈ (updateBars data s).rects,
      r.attrs.y + r.attrs.height = svgHeight - svgMargin.bottom ∧
      r.attrs.width = (xScale data).bandwidth) ∧
    ∀ l ∈ (updateLabels data s).labels,
      l.attrs.y + l.attrs.height = svgHeight - svgMargin.bottom ∧
      l.attrs.width = (xScale data).bandwidth := by
  refine ⟨by norm_num [svgHeight, svgMargin], ?_, ?_⟩
  · intro r hr
    rw [updateBars_rects] at hr
    obtain ⟨d, hd, rfl⟩ := List.mem_map.mp hr
    refine ⟨?_, ?_⟩
    · show (setSizeAndPositionToRect data d).y + (setSizeAndPositionToRect data d).height = _
      rw [setSize_y, setSize_height]
      ring
    · exact setSize_width data d
  · intro l hl
    simp only [updateLabels, List.mem_append] at hl
    rcases hl with hl | hl
    · obtain ⟨⟨el, d⟩, hp, rfl⟩ := List.mem_map.mp hl
      refine ⟨?_, ?_⟩
      · show (setSizeAndPositionToRect data d).y + (setSizeAndPositionToRect data d).height = _
        rw [setSize_y, setSize_height]
        ring
      · exact setSize_width data d
    · obtain ⟨d, hd, rfl⟩ := List.mem_map.mp hl
      refine ⟨?_, ?_⟩
      · show (setSizeAndPositionToRect data d).y + (setSizeAndPositionToRect data d).height = _
        rw [setSize_y, setSize_height]
        ring
      · exact setSize_width data d

/-- C9 witness: the single bar of a one-datum dataset sits on the baseline
with the bandwidth as width. -/
theorem C9_witness :
    (mkRect [⟨"a", 1, none⟩] ⟨"a", 1, none⟩).attrs.y +
        (mkRect [⟨"a", 1, none⟩] ⟨"a", 1, none⟩).attrs.height =
      svgHeight - svgMargin.bottom ∧
    (mkRect [⟨"a", 1, none⟩] ⟨"a", 1, none⟩).attrs.width =
      (xScale [⟨"a", 1, none⟩]).bandwidth :=
  (C9_common_baseline_uniform_width [⟨"a", 1, none⟩] {}).2.1 _ (by simp [updateBars_rects])

/-- C10: `updateAxises` first removes every `.axis` group and then appends
exactly two (the bottom x axis and the left y axis), so after any non-empty
sequence of `updateSvg` calls the graphic holds exactly two axis groups. -/
theorem C10_axes_never_accumulate (data : Data) (s : Svg) :
    updateAxises data s =
      { removeAxisElements s with
        axes := [bottomAxis data, leftAxis data],
        trace := s.trace ++ ["axes"] } ∧
    (updateAxises data s).axes.length = 2 ∧
    ∀ (l : List Data) (s' : Svg), l ≠ [] →
      (l.foldl (fun t d => updateSvg t d) s').axes.length = 2 := by
  refine ⟨rfl, rfl, ?_⟩
  intro l
  induction l with
  | nil => intro s' h; exact absurd rfl h
  | cons d tl ih =>
    intro s' h
    rw [List.foldl_cons]
    cases tl with
    | nil => simp [updateSvg_axes]
    | cons d2 tl2 => exact ih (updateSvg s' d) (by simp)

/-- C10 witness: one `updateSvg` pass over a one-datum dataset leaves exactly
two axis groups. -/
theorem C10_witness :
    (([[⟨"a", 1, none⟩]] : List Data).foldl (fun t d => updateSvg t d)
      ({} : Svg)).axes.length = 2 :=
  (C10_axes_never_accumulate [] {}).2.2 [[⟨"a", 1, none⟩]] {} (by simp)

end D3Sample
